import Mathlib

/-!
Shallow embedding of `src/backend/api/src/cache.rs` (Soroban-Registry):
a policy-selectable read-through cache layer with two eviction backends
(a Moka-style approximate-frequency cache and an exact LRU cache with
per-entry expiry), a facade gating on an `enabled` flag, and atomic
metrics counters.

Modelling conventions:
- `Duration` and `Instant` are `Nat` nanosecond counts; `Duration::as_micros`
  is truncating division by 1000 (its `as usize` cast cannot wrap in any
  reachable state, so counters are plain `Nat`).
- `AtomicUsize` counters are `Nat`: the claims concern single-threaded
  call sequences, where relaxed atomics behave as plain integers, and
  `fetch_add(1)` wrap at `usize::MAX` is unreachable.
- `f64` metric derivations are modelled over `ℚ`: the code only compares
  against `0.0` and divides; for the reachable integer-valued sums and
  counts, the `== 0.0` tests and the ratio agree with exact rationals.
- The `lru::LruCache` container is modelled as an association list ordered
  most-recently-used first, with the crate's documented semantics:
  `get` promotes, `put` inserts/replaces at the front and evicts the back
  when the length exceeds capacity, `pop` removes.
- The external `moka` crate is modelled from its documented interface
  (the spec's "concurrent structure configured with max_capacity and
  global_ttl"): a map from key to (value, expiry) where `insert` sets
  `expiry = now + ttl`, `get` returns only unexpired entries, and
  capacity-driven eviction is asynchronous, hence not observable by the
  immediate call sequences the claims state.
- `Instant::now()` is threaded as an explicit `now : Nat` argument;
  the facade's measured elapsed duration is an explicit argument too.
- Rust panics (the `NonZeroUsize::new(...).unwrap()` in `LruCacheImpl::new`)
  are modelled as `Except.error` at the construction boundary.
- The `u64 → usize` cast in `LruCacheImpl::new` is the identity on the
  64-bit targets this crate builds for.
-/

namespace SorobanRegistry

/-- `EvictionPolicy` from cache.rs: `Lru` (exact recency) or `Lfu`
(approximate frequency via Moka TinyLFU). -/
inductive EvictionPolicy where
  | Lru : EvictionPolicy
  | Lfu : EvictionPolicy
deriving DecidableEq, Repr

/-- `CacheConfig` from cache.rs. `global_ttl` is a duration in
nanoseconds; `max_capacity` is a `u64`. -/
structure CacheConfig where
  enabled : Bool
  policy : EvictionPolicy
  global_ttl : Nat
  max_capacity : Nat
deriving DecidableEq, Repr

/-- `CacheMetrics` from cache.rs: six `AtomicUsize` counters. -/
structure CacheMetrics where
  hits : Nat
  misses : Nat
  cached_latency_sum_micros : Nat
  cached_count : Nat
  uncached_latency_sum_micros : Nat
  uncached_count : Nat
deriving DecidableEq, Repr

/-- `CacheMetrics::default()`: all counters zero. -/
def CacheMetrics.init : CacheMetrics := ⟨0, 0, 0, 0, 0, 0⟩

/-- `CacheMetrics::hit_rate`: hits / (hits + misses) * 100, 0 when empty. -/
def CacheMetrics.hit_rate (m : CacheMetrics) : ℚ :=
  let total := m.hits + m.misses
  if total = 0 then 0 else (m.hits : ℚ) / (total : ℚ) * 100

/-- `CacheMetrics::avg_cached_latency`: sum / count, 0 when count = 0. -/
def CacheMetrics.avg_cached_latency (m : CacheMetrics) : ℚ :=
  if m.cached_count = 0 then 0
  else (m.cached_latency_sum_micros : ℚ) / (m.cached_count : ℚ)

/-- `CacheMetrics::avg_uncached_latency`: sum / count, 0 when count = 0. -/
def CacheMetrics.avg_uncached_latency (m : CacheMetrics) : ℚ :=
  if m.uncached_count = 0 then 0
  else (m.uncached_latency_sum_micros : ℚ) / (m.uncached_count : ℚ)

/-- `CacheMetrics::improvement_factor`: 1 if cached average is 0, else 0 if
uncached average is 0, else uncached / cached. -/
def CacheMetrics.improvement_factor (m : CacheMetrics) : ℚ :=
  let cached := m.avg_cached_latency
  let uncached := m.avg_uncached_latency
  if cached = 0 then 1
  else if uncached = 0 then 0
  else uncached / cached

/-- The composite cache key: `format!("\x7b\x7d:\x7b\x7d", contract_id, key)`,
as built identically in `MokaLfuCache::get/put/invalidate` and
`LruCacheImpl::get/put/invalidate`. -/
def cache_key (contract_id key : String) : String :=
  contract_id ++ ":" ++ key

/-- Association-list lookup by key (the map access of both backends). -/
def assocFind {α : Type} (k : String) : List (String × α) → Option α
  | [] => none
  | (k', v) :: rest => if k' = k then some v else assocFind k rest

/-- Association-list removal by key (`pop` / `invalidate`). -/
def assocErase {α : Type} (k : String) : List (String × α) → List (String × α)
  | [] => []
  | (k', v) :: rest =>
      if k' = k then assocErase k rest else (k', v) :: assocErase k rest

/-- An entry of the modelled Moka cache: value plus the absolute expiry
instant the configured time-to-live induces. -/
structure MokaEntry where
  value : String
  expiry : Nat
deriving DecidableEq, Repr

/-- `MokaLfuCache` from cache.rs: the Moka-backed approximate-frequency
backend. The store is modelled as documented for Moka (see file header). -/
structure MokaLfuCache where
  cache : List (String × MokaEntry)
  max_capacity : Nat
  metrics : CacheMetrics
  ttl : Nat
deriving DecidableEq, Repr

/-- `MokaLfuCache::new(capacity, ttl)`: empty Moka cache configured with
`max_capacity` and `time_to_live`, fresh metrics. -/
def MokaLfuCache.new (capacity ttl : Nat) : MokaLfuCache :=
  ⟨[], capacity, CacheMetrics.init, ttl⟩

/-- `MokaLfuCache::get`: look up the composite key (Moka returns only
unexpired entries), then record a hit or a miss. -/
def MokaLfuCache.get (s : MokaLfuCache) (now : Nat) (contract_id key : String) :
    Option String × MokaLfuCache :=
  let ck := cache_key contract_id key
  let result : Option String :=
    match assocFind ck s.cache with
    | some e => if now < e.expiry then some e.value else none
    | none => none
  match result with
  | some v =>
      (some v, { s with metrics := { s.metrics with hits := s.metrics.hits + 1 } })
  | none =>
      (none, { s with metrics := { s.metrics with misses := s.metrics.misses + 1 } })

/-- `MokaLfuCache::put`: plain `insert` — the `ttl_override` parameter is
ignored (underscore-bound in the source); the global TTL applies. -/
def MokaLfuCache.put (s : MokaLfuCache) (now : Nat) (contract_id key value : String)
    (ttl_override : Option Nat) : MokaLfuCache :=
  let ck := cache_key contract_id key
  let _ := ttl_override
  { s with cache := (ck, ⟨value, now + s.ttl⟩) :: assocErase ck s.cache }

/-- `MokaLfuCache::invalidate`: remove the composite key. -/
def MokaLfuCache.invalidate (s : MokaLfuCache) (contract_id key : String) :
    MokaLfuCache :=
  { s with cache := assocErase (cache_key contract_id key) s.cache }

/-- `LruEntry` from cache.rs: value plus absolute expiry instant. -/
structure LruEntry where
  value : String
  expiry : Nat
deriving DecidableEq, Repr

/-- `LruCacheImpl` from cache.rs: the `lru::LruCache`-backed exact-recency
backend. The store is an association list, most-recently-used first. -/
structure LruCacheImpl where
  cache : List (String × LruEntry)
  cap : Nat
  metrics : CacheMetrics
  default_ttl : Nat
deriving DecidableEq, Repr

/-- `LruCacheImpl::new(capacity, ttl)`:
`lru::LruCache::new(NonZeroUsize::new(capacity as usize).unwrap())` —
the `unwrap` panics when `capacity = 0`, modelled as `Except.error`. -/
def LruCacheImpl.new (capacity ttl : Nat) : Except String LruCacheImpl :=
  if capacity = 0 then
    Except.error "NonZeroUsize::new(0).unwrap() panicked"
  else
    Except.ok ⟨[], capacity, CacheMetrics.init, ttl⟩

/-- `LruCacheImpl::get`: look up the composite key. Present and
`expiry > now` → promote to most-recently-used, record hit, return the
value. Present but expired → `pop` the entry and fall through to the miss
path. Absent → miss. -/
def LruCacheImpl.get (s : LruCacheImpl) (now : Nat) (contract_id key : String) :
    Option String × LruCacheImpl :=
  let ck := cache_key contract_id key
  match assocFind ck s.cache with
  | some e =>
      if now < e.expiry then
        (some e.value,
         { s with cache := (ck, e) :: assocErase ck s.cache,
                  metrics := { s.metrics with hits := s.metrics.hits + 1 } })
      else
        (none,
         { s with cache := assocErase ck s.cache,
                  metrics := { s.metrics with misses := s.metrics.misses + 1 } })
  | none =>
      (none, { s with metrics := { s.metrics with misses := s.metrics.misses + 1 } })

/-- `LruCacheImpl::put`: `expiry = now + (ttl_override or default_ttl)`;
`lru::LruCache::put` inserts/replaces at the most-recently-used position
and evicts the least-recently-used entry when the length exceeds capacity. -/
def LruCacheImpl.put (s : LruCacheImpl) (now : Nat) (contract_id key value : String)
    (ttl_override : Option Nat) : LruCacheImpl :=
  let ck := cache_key contract_id key
  let ttl := ttl_override.getD s.default_ttl
  let inserted := (ck, LruEntry.mk value (now + ttl)) :: assocErase ck s.cache
  { s with cache := if s.cap < inserted.length then inserted.dropLast else inserted }

/-- `LruCacheImpl::invalidate`: `pop` the composite key. -/
def LruCacheImpl.invalidate (s : LruCacheImpl) (contract_id key : String) :
    LruCacheImpl :=
  { s with cache := assocErase (cache_key contract_id key) s.cache }

/-- The trait object `Box<dyn ContractStateCache>`: one of the two backends. -/
inductive Backend where
  | lfu : MokaLfuCache → Backend
  | lru : LruCacheImpl → Backend
deriving DecidableEq, Repr

/-- Backend dispatch of `get`. -/
def Backend.get (b : Backend) (now : Nat) (contract_id key : String) :
    Option String × Backend :=
  match b with
  | .lfu s => let (r, s') := s.get now contract_id key; (r, .lfu s')
  | .lru s => let (r, s') := s.get now contract_id key; (r, .lru s')

/-- Backend dispatch of `put`. -/
def Backend.put (b : Backend) (now : Nat) (contract_id key value : String)
    (ttl_override : Option Nat) : Backend :=
  match b with
  | .lfu s => .lfu (s.put now contract_id key value ttl_override)
  | .lru s => .lru (s.put now contract_id key value ttl_override)

/-- Backend dispatch of `invalidate`. -/
def Backend.invalidate (b : Backend) (contract_id key : String) : Backend :=
  match b with
  | .lfu s => .lfu (s.invalidate contract_id key)
  | .lru s => .lru (s.invalidate contract_id key)

/-- Backend dispatch of `metrics()`. -/
def Backend.metrics (b : Backend) : CacheMetrics :=
  match b with
  | .lfu s => s.metrics
  | .lru s => s.metrics

/-- Replace the backend's metrics (the effect of a facade-side
`fetch_add` on the shared collector). -/
def Backend.setMetrics (b : Backend) (m : CacheMetrics) : Backend :=
  match b with
  | .lfu s => .lfu { s with metrics := m }
  | .lru s => .lru { s with metrics := m }

/-- The Moka backend's store, when this backend is the Moka one
(used to state that an operation leaves the store untouched). -/
def Backend.mokaStore (b : Backend) : Option (List (String × MokaEntry)) :=
  match b with
  | .lfu s => some s.cache
  | .lru _ => none

/-- The LRU backend's store, when this backend is the LRU one. -/
def Backend.lruStore (b : Backend) : Option (List (String × LruEntry)) :=
  match b with
  | .lfu _ => none
  | .lru s => some s.cache

/-- `CacheLayer` from cache.rs: the facade owning one backend and the
immutable configuration. -/
structure CacheLayer where
  backend : Backend
  config : CacheConfig
deriving DecidableEq, Repr

/-- `CacheLayer::new(config)`: select the backend by policy. The `Lru`
arm propagates the construction-time panic of `LruCacheImpl::new`. -/
def CacheLayer.new (config : CacheConfig) : Except String CacheLayer :=
  match config.policy with
  | .Lfu =>
      Except.ok ⟨.lfu (MokaLfuCache.new config.max_capacity config.global_ttl), config⟩
  | .Lru =>
      (LruCacheImpl.new config.max_capacity config.global_ttl).map
        fun s => ⟨.lru s, config⟩

/-- `CacheLayer::get`: short-circuit to `None` when disabled; otherwise
delegate and, on a hit only, add the measured elapsed duration
(`elapsed` nanoseconds, recorded as microseconds) to the cached-latency
metrics. -/
def CacheLayer.get (l : CacheLayer) (now elapsed : Nat) (contract_id key : String) :
    Option String × CacheLayer :=
  if !l.config.enabled then
    (none, l)
  else
    let (res, b') := l.backend.get now contract_id key
    match res with
    | some v =>
        let m := b'.metrics
        (some v,
         ⟨b'.setMetrics
            { m with
              cached_latency_sum_micros := m.cached_latency_sum_micros + elapsed / 1000,
              cached_count := m.cached_count + 1 },
          l.config⟩)
    | none => (none, ⟨b', l.config⟩)

/-- `CacheLayer::put`: no-op when disabled; otherwise delegate. -/
def CacheLayer.put (l : CacheLayer) (now : Nat) (contract_id key value : String)
    (ttl_override : Option Nat) : CacheLayer :=
  if !l.config.enabled then l
  else ⟨l.backend.put now contract_id key value ttl_override, l.config⟩

/-- `CacheLayer::invalidate`: no-op when disabled; otherwise delegate. -/
def CacheLayer.invalidate (l : CacheLayer) (contract_id key : String) : CacheLayer :=
  if !l.config.enabled then l
  else ⟨l.backend.invalidate contract_id key, l.config⟩

/-- `CacheLayer::record_uncached_latency(duration)`: unconditionally add
the duration in microseconds to the uncached-latency sum and bump the
sample count (not gated on `enabled`). -/
def CacheLayer.record_uncached_latency (l : CacheLayer) (duration : Nat) : CacheLayer :=
  let m := l.backend.metrics
  ⟨l.backend.setMetrics
     { m with
       uncached_latency_sum_micros := m.uncached_latency_sum_micros + duration / 1000,
       uncached_count := m.uncached_count + 1 },
   l.config⟩

/-- A concrete enabled LRU configuration (for concrete instantiations). -/
def cfgLruSmall : CacheConfig := ⟨true, EvictionPolicy.Lru, 60, 100⟩

/-- The layer `CacheLayer::new(cfgLruSmall)` constructs. -/
def layerLruSmall : CacheLayer :=
  ⟨Backend.lru ⟨[], 100, CacheMetrics.init, 60⟩, cfgLruSmall⟩

/-- A concrete disabled configuration (for concrete instantiations). -/
def cfgDisabled : CacheConfig := ⟨false, EvictionPolicy.Lfu, 60, 100⟩

/-- The layer `CacheLayer::new(cfgDisabled)` constructs. -/
def layerDisabled : CacheLayer := ⟨Backend.lfu (MokaLfuCache.new 100 60), cfgDisabled⟩

/-! ## Helper lemmas -/

/-- Erasing one key keeps every pair with a different key. -/
theorem mem_assocErase_of_ne {α : Type} (k : String) (p : String × α) :
    ∀ l : List (String × α), p ∈ l → p.1 ≠ k → p ∈ assocErase k l := by
  intro l
  induction l with
  | nil => intro h _; exact absurd h (List.not_mem_nil p)
  | cons q t ih =>
      intro hp hne
      cases q with
      | mk qk qv =>
          rcases List.mem_cons.mp hp with h | h
          · subst h
            simp only [assocErase, if_neg hne]
            exact List.mem_cons_self _ _
          · by_cases hq : qk = k
            · simpa [assocErase, hq] using ih h hne
            · simp only [assocErase, if_neg hq]
              exact List.mem_cons_of_mem _ (ih h hne)

/-- Lists split uniquely around a separator element absent from both
prefixes. -/
theorem append_sep_inj (c : Char) :
    ∀ a₁ a₂ b₁ b₂ : List Char, c ∉ a₁ → c ∉ a₂ →
      a₁ ++ c :: b₁ = a₂ ++ c :: b₂ → a₁ = a₂ ∧ b₁ = b₂ := by
  intro a₁
  induction a₁ with
  | nil =>
      intro a₂ b₁ b₂ h₁ h₂ h
      cases a₂ with
      | nil => simpa using h
      | cons y t₂ =>
          exfalso
          simp only [List.nil_append, List.cons_append, List.cons.injEq] at h
          exact h₂ (h.1 ▸ List.mem_cons_self y t₂)
  | cons x t₁ ih =>
      intro a₂ b₁ b₂ h₁ h₂ h
      cases a₂ with
      | nil =>
          exfalso
          simp only [List.nil_append, List.cons_append, List.cons.injEq] at h
          exact h₁ (h.1.symm ▸ List.mem_cons_self x t₁)
      | cons y t₂ =>
          simp only [List.cons_append, List.cons.injEq] at h
          obtain ⟨rfl, h'⟩ := h
          have h₁' : c ∉ t₁ := fun hc => h₁ (List.mem_cons_of_mem _ hc)
          have h₂' : c ∉ t₂ := fun hc => h₂ (List.mem_cons_of_mem _ hc)
          obtain ⟨rfl, rfl⟩ := ih t₂ b₁ b₂ h₁' h₂' h'
          exact ⟨rfl, rfl⟩

/-- Looking up the just-inserted front key of the bounded-recency store
(after its possible length-driven eviction of the back) finds the inserted
entry, provided the capacity is nonzero. -/
theorem assocFind_lruInsert (ck : String) (e : LruEntry) (cap : Nat)
    (t : List (String × LruEntry)) (hcap : 0 < cap) :
    assocFind ck
      (if cap < ((ck, e) :: t).length then ((ck, e) :: t).dropLast
       else (ck, e) :: t) = some e := by
  by_cases h : cap < ((ck, e) :: t).length
  · rw [if_pos h]
    cases t with
    | nil => simp at h; omega
    | cons q t' => simp [List.dropLast, assocFind]
  · rw [if_neg h]
    simp [assocFind]

/-- The character data of a composite key. -/
theorem cache_key_data (ns k : String) :
    (cache_key ns k).data = ns.data ++ ':' :: k.data := by
  simp [cache_key]

/-! ## Claim theorems -/

/-- Claim C4: `improvement_factor()` returns 1 whenever the average cached
latency is 0 (in particular when there are zero cached-latency samples,
whatever the uncached counters hold); otherwise 0 whenever the average
uncached latency is 0; otherwise the ratio uncached / cached; and when both
averages are 0 the cached-zero check takes precedence and the result is 1. -/
theorem improvement_factor_edge_policy (m : CacheMetrics) :
    (m.avg_cached_latency = 0 → m.improvement_factor = 1) ∧
    (m.cached_count = 0 → m.improvement_factor = 1) ∧
    (m.avg_cached_latency ≠ 0 → m.avg_uncached_latency = 0 →
      m.improvement_factor = 0) ∧
    (m.avg_cached_latency ≠ 0 → m.avg_uncached_latency ≠ 0 →
      m.improvement_factor = m.avg_uncached_latency / m.avg_cached_latency) ∧
    (m.avg_cached_latency = 0 → m.avg_uncached_latency = 0 →
      m.improvement_factor = 1) := by
  refine ⟨?_, ?_, ?_, ?_, ?_⟩
  · intro h; simp [CacheMetrics.improvement_factor, h]
  · intro h
    have hz : m.avg_cached_latency = 0 := by
      simp [CacheMetrics.avg_cached_latency, h]
    simp [CacheMetrics.improvement_factor, hz]
  · intro h h'; simp [CacheMetrics.improvement_factor, h, h']
  · intro h h'; simp [CacheMetrics.improvement_factor, h, h']
  · intro h _; simp [CacheMetrics.improvement_factor, h]

/-- Claim C2: construction fails (the `NonZeroUsize` unwrap panics) exactly
when the policy is the exact-recency one and `max_capacity` is 0; every
other configuration constructs a layer. -/
theorem new_fails_iff_lru_zero_capacity (cfg : CacheConfig) :
    (∃ e, CacheLayer.new cfg = Except.error e) ↔
      cfg.policy = EvictionPolicy.Lru ∧ cfg.max_capacity = 0 := by
  obtain ⟨en, p, t, c⟩ := cfg
  cases p with
  | Lfu => simp [CacheLayer.new]
  | Lru =>
      by_cases hc : c = 0 <;>
        simp [CacheLayer.new, LruCacheImpl.new, hc, Except.map]

/-- Claim C10: with the approximate-frequency policy, `max_capacity = 0`
constructs successfully, yielding the facade over a zero-capacity Moka
backend (the zero-capacity failure is specific to the exact-recency
backend). -/
theorem lfu_zero_capacity_constructs (en : Bool) (t : Nat) :
    CacheLayer.new ⟨en, EvictionPolicy.Lfu, t, 0⟩ =
      Except.ok ⟨Backend.lfu (MokaLfuCache.new 0 t), en, EvictionPolicy.Lfu, t, 0⟩ := by
  rfl

/-- Claim C9: `record_uncached_latency(d)` adds `d` truncated to
microseconds to the uncached-latency sum and bumps the uncached sample
count, for every configuration (the update is not gated on `enabled`),
leaving every other counter, both stores, and the configuration unchanged. -/
theorem record_uncached_latency_unconditional (l : CacheLayer) (d : Nat) :
    (l.record_uncached_latency d).backend.metrics =
      { l.backend.metrics with
        uncached_latency_sum_micros :=
          l.backend.metrics.uncached_latency_sum_micros + d / 1000,
        uncached_count := l.backend.metrics.uncached_count + 1 } ∧
    (l.record_uncached_latency d).backend.mokaStore = l.backend.mokaStore ∧
    (l.record_uncached_latency d).backend.lruStore = l.backend.lruStore ∧
    (l.record_uncached_latency d).config = l.config := by
  obtain ⟨b, cfg⟩ := l
  cases b <;>
    simp [CacheLayer.record_uncached_latency, Backend.setMetrics, Backend.metrics,
      Backend.mokaStore, Backend.lruStore]

/-- Claim C5: with `enabled = false`, `get` returns nothing and leaves the
whole layer (store and every metrics counter) unchanged, `put` and
`invalidate` leave the layer unchanged, and consequently `put` followed by
`get` on the same key returns nothing, under either policy. -/
theorem disabled_frame (l : CacheLayer) (now elapsed : Nat)
    (ns k v : String) (o : Option Nat)
    (h : l.config.enabled = false) :
    l.get now elapsed ns k = (none, l) ∧
    l.put now ns k v o = l ∧
    l.invalidate ns k = l ∧
    ((l.put now ns k v o).get now elapsed ns k).1 = none := by
  refine ⟨?_, ?_, ?_, ?_⟩ <;>
    simp [CacheLayer.get, CacheLayer.put, CacheLayer.invalidate, h]

/-- Concrete instantiation of `disabled_frame` at a disabled Moka-backed
layer. -/
theorem disabled_frame_witness :
    layerDisabled.get 0 0 "c1" "k1" = (none, layerDisabled) ∧
    layerDisabled.put 0 "c1" "k1" "v1" none = layerDisabled ∧
    layerDisabled.invalidate "c1" "k1" = layerDisabled ∧
    ((layerDisabled.put 0 "c1" "k1" "v1" none).get 0 0 "c1" "k1").1 = none :=
  disabled_frame layerDisabled 0 0 "c1" "k1" "v1" none rfl

/-- Claim C1: for every configuration that constructs (so, nonzero capacity
when the policy is exact-recency), with caching enabled and a positive
global TTL, `put(ns, k, v)` followed immediately by `get(ns, k)` returns
`some v`, under either policy. -/
theorem put_then_get (cfg : CacheConfig) (l : CacheLayer) (now elapsed : Nat)
    (ns k v : String)
    (hnew : CacheLayer.new cfg = Except.ok l)
    (hen : cfg.enabled = true)
    (httl : 0 < cfg.global_ttl) :
    ((l.put now ns k v none).get now elapsed ns k).1 = some v := by
  obtain ⟨en, p, t, c⟩ := cfg
  subst hen
  cases p with
  | Lfu =>
      simp only [CacheLayer.new, Except.ok.injEq] at hnew
      subst hnew
      simp [CacheLayer.put, CacheLayer.get, Backend.put, Backend.get,
        MokaLfuCache.new, MokaLfuCache.put, MokaLfuCache.get, assocFind,
        Nat.lt_add_right_iff_pos.mpr httl]
  | Lru =>
      by_cases hc : c = 0
      · simp [CacheLayer.new, LruCacheImpl.new, hc, Except.map] at hnew
      · simp only [CacheLayer.new, LruCacheImpl.new, if_neg hc, Except.map,
          Except.ok.injEq] at hnew
        subst hnew
        have hcap : ¬ (c < 1) := by omega
        simp [CacheLayer.put, CacheLayer.get, Backend.put, Backend.get,
          LruCacheImpl.put, LruCacheImpl.get, assocFind, assocErase, hcap,
          Nat.lt_add_right_iff_pos.mpr httl]

/-- Concrete instantiation of `put_then_get` at an enabled LRU layer. -/
theorem put_then_get_witness :
    ((layerLruSmall.put 0 "c1" "k1" "v1" none).get 0 0 "c1" "k1").1 = some "v1" :=
  put_then_get cfgLruSmall layerLruSmall 0 0 "c1" "k1" "v1" (by rfl) rfl
    (by decide)

/-- Claim C3 fails as stated: the colon-joined composite key collides on the
distinct pairs ("a:b", "c") and ("a", "b:c"). -/
theorem cache_key_not_injective :
    cache_key "a:b" "c" = cache_key "a" "b:c" ∧
    (("a:b", "c") : String × String) ≠ ("a", "b:c") := by
  constructor
  · rfl
  · decide

/-- Claim C3 amended: the composite key map is injective on pairs whose
namespace component does not contain the ':' separator (the key component
is unconstrained). -/
theorem cache_key_inj_of_sep_free_ns (ns₁ k₁ ns₂ k₂ : String)
    (h₁ : ':' ∉ ns₁.data) (h₂ : ':' ∉ ns₂.data)
    (h : cache_key ns₁ k₁ = cache_key ns₂ k₂) :
    ns₁ = ns₂ ∧ k₁ = k₂ := by
  have hd : ns₁.data ++ ':' :: k₁.data = ns₂.data ++ ':' :: k₂.data := by
    have := congrArg String.data h
    rwa [cache_key_data, cache_key_data] at this
  obtain ⟨hns, hk⟩ := append_sep_inj ':' ns₁.data ns₂.data k₁.data k₂.data h₁ h₂ hd
  exact ⟨String.ext hns, String.ext hk⟩

/-- Concrete instantiation of `cache_key_inj_of_sep_free_ns` at
separator-free namespaces. -/
theorem cache_key_inj_witness : ("ns" : String) = "ns" ∧ ("k" : String) = "k" :=
  cache_key_inj_of_sep_free_ns "ns" "k" "ns" "k" (by decide) (by decide) rfl

/-- Claim C6: on the exact-recency backend, `get` of an entry whose expiry
is not strictly after `now` removes exactly that entry, bumps the miss
counter by 1 (hits unchanged), and returns nothing; and a `get` never
removes an entry under any other key (lazy expiration, no sweep). -/
theorem lru_get_lazy_expiration (s : LruCacheImpl) (now : Nat) (ns k : String) :
    (∀ e, assocFind (cache_key ns k) s.cache = some e → e.expiry ≤ now →
      s.get now ns k =
        (none,
         { s with
           cache := assocErase (cache_key ns k) s.cache,
           metrics := { s.metrics with misses := s.metrics.misses + 1 } })) ∧
    (∀ p ∈ s.cache, p.1 ≠ cache_key ns k → p ∈ (s.get now ns k).2.cache) := by
  constructor
  · intro e he hexp
    have hlt : ¬ now < e.expiry := by omega
    simp [LruCacheImpl.get, he, hlt]
  · intro p hp hne
    unfold LruCacheImpl.get
    cases hfind : assocFind (cache_key ns k) s.cache with
    | none => simpa [hfind] using hp
    | some e =>
        by_cases hlt : now < e.expiry
        · simp only [hfind, if_pos hlt]
          exact List.mem_cons_of_mem _ (mem_assocErase_of_ne _ p s.cache hp hne)
        · simp only [hfind, if_neg hlt]
          exact mem_assocErase_of_ne _ p s.cache hp hne

/-- Claim C7: every backend-level `get` bumps exactly one of the hit or miss
counters by exactly 1 and leaves the other unchanged; and on a key absent
from the store, either backend returns nothing, bumps the miss counter by
exactly 1 and leaves the hit counter unchanged. -/
theorem backend_get_hit_xor_miss (now : Nat) (ns k : String) :
    (∀ m : MokaLfuCache,
      (((m.get now ns k).2.metrics.hits = m.metrics.hits + 1 ∧
        (m.get now ns k).2.metrics.misses = m.metrics.misses) ∨
       ((m.get now ns k).2.metrics.hits = m.metrics.hits ∧
        (m.get now ns k).2.metrics.misses = m.metrics.misses + 1)) ∧
      (assocFind (cache_key ns k) m.cache = none →
        (m.get now ns k).1 = none ∧
        (m.get now ns k).2.metrics.misses = m.metrics.misses + 1 ∧
        (m.get now ns k).2.metrics.hits = m.metrics.hits)) ∧
    (∀ s : LruCacheImpl,
      (((s.get now ns k).2.metrics.hits = s.metrics.hits + 1 ∧
        (s.get now ns k).2.metrics.misses = s.metrics.misses) ∨
       ((s.get now ns k).2.metrics.hits = s.metrics.hits ∧
        (s.get now ns k).2.metrics.misses = s.metrics.misses + 1)) ∧
      (assocFind (cache_key ns k) s.cache = none →
        (s.get now ns k).1 = none ∧
        (s.get now ns k).2.metrics.misses = s.metrics.misses + 1 ∧
        (s.get now ns k).2.metrics.hits = s.metrics.hits)) := by
  constructor
  · intro m
    constructor
    · unfold MokaLfuCache.get
      cases hfind : assocFind (cache_key ns k) m.cache with
      | none => simp [hfind]
      | some e =>
          by_cases hlt : now < e.expiry <;> simp [hfind, hlt]
    · intro hfind
      simp [MokaLfuCache.get, hfind]
  · intro s
    constructor
    · unfold LruCacheImpl.get
      cases hfind : assocFind (cache_key ns k) s.cache with
      | none => simp [hfind]
      | some e =>
          by_cases hlt : now < e.expiry <;> simp [hfind, hlt]
    · intro hfind
      simp [LruCacheImpl.get, hfind]

/-- Claim C8: the exact-recency backend stores the freshly put entry with
`expiry = now + ttl_override` when an override is supplied and
`expiry = now + default_ttl` otherwise, while the Moka backend stores it
with `expiry = now + ttl` regardless of the override argument. -/
theorem put_expiry_semantics (now : Nat) (ns k v : String) (o : Option Nat) :
    (∀ s : LruCacheImpl, 0 < s.cap →
      assocFind (cache_key ns k) ((s.put now ns k v o).cache) =
        some (LruEntry.mk v (now + o.getD s.default_ttl))) ∧
    (∀ m : MokaLfuCache,
      assocFind (cache_key ns k) ((m.put now ns k v o).cache) =
        some (MokaEntry.mk v (now + m.ttl))) := by
  constructor
  · intro s hcap
    exact assocFind_lruInsert (cache_key ns k)
      (LruEntry.mk v (now + o.getD s.default_ttl)) s.cap
      (assocErase (cache_key ns k) s.cache) hcap
  · intro m
    simp [MokaLfuCache.put, assocFind]

end SorobanRegistry
